import Mathlib

/-!
Verification of the voicechenger repository: a shallow embedding of the
jitter buffer (`BufferedAudioSource` in bot.py), the per-speaker
accumulator (`VoiceChangerSink.write` in bot.py), the pitch-shift
transform engine (`VoiceChanger.process` and `_pitch_shift` in
voice_changer.py), the mode controller (`VoiceChanger` in
voice_changer.py), the backend selection chains, and the
local-microphone callback (`audio_callback` in main.py).

Byte strings are modelled as `List Nat` (each entry one byte value);
16-bit samples as `Int`; float32 audio in voice_changer.py as `ℚ`
(every conversion the code performs there — `/ 32768.0`, averaging two
normalized samples, `* 0.5`, `* 32768.0`, clipping — is exact in
float32, so the rational model is faithful); float32 audio in main.py
as `ℝ` because its soft limiter is `np.tanh`.  External DSP backends
(pyrubberband, librosa, scipy.signal.resample) are not code of this
repository and enter as function parameters; the repository code
around them is translated literally.
-/

/-! ## Discord audio format constants (voice_changer.py lines 14-18) -/

def DISCORD_SAMPLE_RATE : Nat := 48000

def DISCORD_CHANNELS : Nat := 2

def DISCORD_FRAME_MS : Nat := 20

def DISCORD_FRAME_SAMPLES : Nat := DISCORD_SAMPLE_RATE * DISCORD_FRAME_MS / 1000

def DISCORD_FRAME_BYTES : Nat := DISCORD_FRAME_SAMPLES * DISCORD_CHANNELS * 2

/-! ## Jitter buffer: BufferedAudioSource (bot.py lines 32-73)

The buffer state is the byte content of `self._buf`.  `read` returns
the produced frame together with the new buffer state. -/

/-- bot.py lines 45-52: return one 20 ms frame (3840 bytes); if fewer
than 3840 bytes are buffered, return a zero (silence) frame and leave
the buffer unchanged. -/
def BufferedAudioSource.read (buf : List Nat) : List Nat × List Nat :=
  if DISCORD_FRAME_BYTES ≤ buf.length then
    (buf.take DISCORD_FRAME_BYTES, buf.drop DISCORD_FRAME_BYTES)
  else
    (List.replicate DISCORD_FRAME_BYTES 0, buf)

/-- bot.py lines 63-66: `self._buf.extend(data)`. -/
def BufferedAudioSource.push (buf data : List Nat) : List Nat :=
  buf ++ data

/-! ## Mode controller: VoiceChanger state (voice_changer.py lines 65-113) -/

/-- voice_changer.py lines 81-84: the mutable fields `mode`,
`_gender_st`, `_custom_st`. -/
structure VoiceChanger where
  mode : String
  gender_st : ℚ
  custom_st : ℚ

/-- voice_changer.py lines 69-73 together with the `.get(mode, 0.0)`
lookup on line 94: the `_FIXED` dict. -/
def fixedShift (mode : String) : Option ℚ :=
  if mode = "normal" then some 0
  else if mode = "high" then some 6
  else if mode = "low" then some (-6)
  else none

/-- voice_changer.py lines 81-84: `__init__` state. -/
def VoiceChanger.init : VoiceChanger :=
  { mode := "normal", gender_st := 10, custom_st := 0 }

/-- voice_changer.py lines 88-94: the `semitones` property. -/
def VoiceChanger.semitones (vc : VoiceChanger) : ℚ :=
  if vc.mode = "gender" then vc.gender_st
  else if vc.mode = "custom" then vc.custom_st
  else (fixedShift vc.mode).getD 0

/-- voice_changer.py line 107. -/
def VoiceChanger.set_normal (vc : VoiceChanger) : VoiceChanger :=
  { vc with mode := "normal" }

/-- voice_changer.py line 108. -/
def VoiceChanger.set_high (vc : VoiceChanger) : VoiceChanger :=
  { vc with mode := "high" }

/-- voice_changer.py line 109. -/
def VoiceChanger.set_low (vc : VoiceChanger) : VoiceChanger :=
  { vc with mode := "low" }

/-- voice_changer.py lines 111-113. -/
def VoiceChanger.set_gender (vc : VoiceChanger) (male_to_female : Bool) : VoiceChanger :=
  { vc with gender_st := if male_to_female then 10 else -10, mode := "gender" }

/-- The mode-set operations exposed by `VoiceChanger`
(voice_changer.py lines 107-113). -/
inductive ModeOp where
  | set_normal : ModeOp
  | set_high : ModeOp
  | set_low : ModeOp
  | set_gender : Bool → ModeOp

def applyModeOp (vc : VoiceChanger) : ModeOp → VoiceChanger
  | ModeOp.set_normal => vc.set_normal
  | ModeOp.set_high => vc.set_high
  | ModeOp.set_low => vc.set_low
  | ModeOp.set_gender b => vc.set_gender b

/-- A fresh `VoiceChanger` after an arbitrary sequence of mode-set
operations. -/
def runModeOps (ops : List ModeOp) : VoiceChanger :=
  ops.foldl applyModeOp VoiceChanger.init

/-! ## PCM byte conversions (numpy calls in voice_changer.py lines 126-138)

`np.frombuffer(pcm, dtype=np.int16)` reads consecutive byte pairs as
little-endian signed 16-bit integers; `.tobytes()` is its inverse. -/

/-- Little-endian signed 16-bit decode of one byte pair. -/
def decodeSample (b0 b1 : Nat) : Int :=
  let u := (b0 + 256 * b1) % 65536
  if u < 32768 then (u : Int) else (u : Int) - 65536

/-- `np.frombuffer(pcm_bytes, dtype=np.int16)`. -/
def byteToSamples : List Nat → List Int
  | b0 :: b1 :: rest => decodeSample b0 b1 :: byteToSamples rest
  | _ => []

/-- Little-endian signed 16-bit encode of one sample. -/
def encodeSample (s : Int) : List Nat :=
  [(s % 65536).toNat % 256, (s % 65536).toNat / 256]

/-- `.tobytes()` on an int16 array. -/
def samplesToBytes (xs : List Int) : List Nat :=
  xs.flatMap encodeSample

/-- `.astype(np.float32) / 32768.0` (voice_changer.py line 127): each
int16 sample divided by 32768 is exactly representable in float32. -/
def normalizePCM (samples : List Int) : List ℚ :=
  samples.map (fun i : Int => (i : ℚ) / 32768)

/-- voice_changer.py line 130: `(arr[0::2] + arr[1::2]) * 0.5`, the
stereo-to-mono downmix by averaging consecutive sample pairs. -/
def avgPairs : List ℚ → List ℚ
  | a :: b :: rest => (a + b) * (1 / 2) :: avgPairs rest
  | _ => []

/-- Truncation toward zero, the semantics of `.astype(np.int16)` on an
already-clipped float value. -/
def truncRat (x : ℚ) : Int :=
  if 0 ≤ x then Int.floor x else Int.ceil x

/-- voice_changer.py line 136: `np.clip(v, -32768, 32767).astype(np.int16)`
applied to one value. -/
def clipToInt16 (x : ℚ) : Int :=
  truncRat (min 32767 (max (-32768) x))

/-- voice_changer.py line 137: `np.repeat(out_i16, 2)`, mono to stereo
by duplicating every sample. -/
def repeatTwice (xs : List Int) : List Int :=
  xs.flatMap (fun s => [s, s])

/-! ## Pitch-shift engine selection (voice_changer.py lines 21-31, main.py lines 62-72, 112-120) -/

/-- The three DSP backends named by the import chains. -/
inductive Engine where
  | pyrubberband : Engine
  | librosa : Engine
  | scipy : Engine
deriving DecidableEq

/-- voice_changer.py lines 21-31: the import-time try/except chain
setting `_ENGINE`, as a function of which imports succeed. -/
def ENGINE (hasPyrb hasLibrosa : Bool) : Engine :=
  if hasPyrb then Engine.pyrubberband
  else if hasLibrosa then Engine.librosa
  else Engine.scipy

/-- main.py lines 112-120: the if-chain in `pitch_shift` dispatching on
`HAS_PYRUBBERBAND` / `HAS_LIBROSA`, as the backend it selects. -/
def selectBackendMain (hasPyrb hasLibrosa : Bool) : Engine :=
  if hasPyrb then Engine.pyrubberband
  else if hasLibrosa then Engine.librosa
  else Engine.scipy

/-- The external DSP routines `_pitch_shift` can call.  `pyrb` and
`librosa` are the two library pitch shifters; `resample` is
`scipy.signal.resample(mono, new_len)`; `approx_len` is the real-valued
computation `int(round(n / 2.0 ** (semitones / 12.0)))` on line 53 of
voice_changer.py, abstracted because it is evaluated in floating point
(the code then takes `max(1, ...)`, which stays explicit below). -/
structure Backends where
  pyrb : List ℚ → ℚ → List ℚ
  librosa : List ℚ → ℚ → List ℚ
  resample : List ℚ → Nat → List ℚ
  approx_len : Nat → ℚ → Nat

/-- voice_changer.py lines 36-60: `_pitch_shift`, dispatching on the
selected engine; the scipy branch computes
`new_len = max(1, int(round(n / factor)))`, resamples to `new_len`
samples, then truncates (`resampled[:n]`) when `new_len >= n` or tiles
`int(np.ceil(n / new_len)) + 1` copies and truncates otherwise. -/
def pitch_shift_impl (bk : Backends) (engine : Engine) (mono : List ℚ)
    (semitones : ℚ) : List ℚ :=
  match engine with
  | Engine.pyrubberband => bk.pyrb mono semitones
  | Engine.librosa => bk.librosa mono semitones
  | Engine.scipy =>
      let n := mono.length
      let new_len := max 1 (bk.approx_len n semitones)
      let resampled := bk.resample mono new_len
      if n ≤ new_len then resampled.take n
      else
        let repeats := (n + new_len - 1) / new_len + 1
        (List.replicate repeats resampled).flatten.take n

/-! ## The transform: VoiceChanger.process (voice_changer.py lines 117-138)

The pitch-shift algorithm is a parameter (`ps`), standing for the
backend `_pitch_shift` dispatches to.  `process` is the pure model;
`processE` is the same code with a fallible backend, making explicit
that `process` contains no try/except: a backend exception propagates. -/

/-- voice_changer.py lines 117-138: identity fast path on zero shift,
else int16 → float, stereo → mono average, pitch shift, clip to int16,
mono → stereo by duplication, back to bytes. -/
def VoiceChanger.process (ps : List ℚ → ℚ → List ℚ) (vc : VoiceChanger)
    (pcm_bytes : List Nat) : List Nat :=
  let st := vc.semitones
  if st = 0 then pcm_bytes
  else
    let arr := normalizePCM (byteToSamples pcm_bytes)
    let mono := avgPairs arr
    let shifted := ps mono st
    let out_i16 := shifted.map (fun x => clipToInt16 (x * 32768))
    samplesToBytes (repeatTwice out_i16)

/-- voice_changer.py lines 117-138 with a fallible pitch-shift backend:
the method body has no try/except, so an error raised by the backend
propagates to the caller of `process`. -/
def VoiceChanger.processE (ps : List ℚ → ℚ → Except Unit (List ℚ))
    (vc : VoiceChanger) (pcm_bytes : List Nat) : Except Unit (List Nat) :=
  let st := vc.semitones
  if st = 0 then Except.ok pcm_bytes
  else
    let arr := normalizePCM (byteToSamples pcm_bytes)
    let mono := avgPairs arr
    match ps mono st with
    | Except.error e => Except.error e
    | Except.ok shifted =>
        Except.ok (samplesToBytes (repeatTwice
          (shifted.map (fun x => clipToInt16 (x * 32768)))))

/-! ## Accumulator/dispatcher: VoiceChangerSink.write (bot.py lines 87-124) -/

/-- bot.py line 89. -/
def PROCESS_FRAMES : Nat := 10

/-- bot.py line 98: `DISCORD_FRAME_BYTES * PROCESS_FRAMES` = 38400. -/
def chunk_bytes : Nat := DISCORD_FRAME_BYTES * PROCESS_FRAMES

/-- bot.py lines 109-111: the `while len(buf) >= self._chunk_bytes`
loop, returning the removed chunks in dispatch order together with the
remaining buffer. -/
def writeLoop (buf : List Nat) : List (List Nat) × List Nat :=
  if hok : chunk_bytes ≤ buf.length then
    let r := writeLoop (buf.drop chunk_bytes)
    (buf.take chunk_bytes :: r.1, r.2)
  else
    ([], buf)
termination_by buf.length
decreasing_by
  have hc : 0 < chunk_bytes := by decide
  simp only [List.length_drop]
  omega

/-- bot.py lines 103-113: `write` extends the speaker buffer with the
incoming data, then repeatedly removes one `chunk_bytes` window from
the front, transforms it with `self.changer.process`, and pushes the
result onto the jitter buffer.  Returns (new speaker buffer, new
jitter buffer content). -/
def VoiceChangerSink.write (ps : List ℚ → ℚ → List ℚ) (changer : VoiceChanger)
    (buf data jitter : List Nat) : List Nat × List Nat :=
  let r := writeLoop (buf ++ data)
  (r.2, jitter ++ (r.1.map (VoiceChanger.process ps changer)).flatten)

/-! ## Local-microphone variant: audio_callback (main.py lines 125-156) -/

/-- main.py line 27. -/
def VOLUME_GAIN : ℝ := 4

open Classical

/-- main.py lines 139-146: if the shift is nonzero, try the pitch
shift and fall back to the original audio when the backend raises;
otherwise pass the audio through. -/
noncomputable def callbackProcessed (ps : List ℝ → ℝ → Except Unit (List ℝ))
    (semitones : ℝ) (audio : List ℝ) : List ℝ :=
  if semitones ≠ 0 then
    match ps audio semitones with
    | Except.ok r => r
    | Except.error _ => audio
  else audio

/-- main.py lines 148-156: amplify by the gain, apply the `np.tanh`
soft limiter, zero the output block, and copy
`min(len(processed), frames)` samples into it.  The result is output
column 0 as a list of `frames` samples. -/
noncomputable def audio_callback (ps : List ℝ → ℝ → Except Unit (List ℝ))
    (semitones gain : ℝ) (audio : List ℝ) (frames : Nat) : List ℝ :=
  let processed := (callbackProcessed ps semitones audio).map
    (fun x => Real.tanh (x * gain))
  let copy_len := min processed.length frames
  (List.range frames).map (fun i => if i < copy_len then processed.getD i 0 else 0)

/-! ## Concrete instances used by witnesses -/

/-- An identity pitch-shift backend. -/
def psId : List ℚ → ℚ → List ℚ := fun mono _ => mono

/-- A backend that always raises. -/
def psErr : List ℚ → ℚ → Except Unit (List ℚ) := fun _ _ => Except.error ()

/-- A concrete backend bundle whose resampler honours the
`scipy.signal.resample` length contract. -/
def bkZero : Backends :=
  { pyrb := fun mono _ => mono
  , librosa := fun mono _ => mono
  , resample := fun _ m => List.replicate m 0
  , approx_len := fun n _ => n }

/-- A `VoiceChanger` whose mode string is outside the recognized set. -/
def vcWeird : VoiceChanger := { mode := "banana", gender_st := 10, custom_st := 0 }

/-! ## Theorems -/

/-- Claim C1: `read` always returns exactly one 3840-byte frame: with at
least 3840 bytes buffered it removes and returns the first 3840 bytes,
otherwise it returns 3840 zero bytes and leaves the buffer unchanged;
and on a buffer of exactly two frames, two consecutive reads return the
real data in order, the buffer is empty after the second read, and the
third read returns an all-zero frame. -/
theorem c1_read_frame (buf : List Nat) :
    (BufferedAudioSource.read buf).1.length = DISCORD_FRAME_BYTES
    ∧ (DISCORD_FRAME_BYTES ≤ buf.length →
        BufferedAudioSource.read buf =
          (buf.take DISCORD_FRAME_BYTES, buf.drop DISCORD_FRAME_BYTES))
    ∧ (buf.length < DISCORD_FRAME_BYTES →
        BufferedAudioSource.read buf = (List.replicate DISCORD_FRAME_BYTES 0, buf))
    ∧ ∀ d : List Nat, d.length = 2 * DISCORD_FRAME_BYTES →
        (BufferedAudioSource.read d).1 = d.take DISCORD_FRAME_BYTES
        ∧ (BufferedAudioSource.read (BufferedAudioSource.read d).2).1 =
            d.drop DISCORD_FRAME_BYTES
        ∧ (BufferedAudioSource.read (BufferedAudioSource.read d).2).2.length = 0
        ∧ (BufferedAudioSource.read
            (BufferedAudioSource.read (BufferedAudioSource.read d).2).2).1 =
            List.replicate DISCORD_FRAME_BYTES 0 := by
  refine ⟨?_, ?_, ?_, ?_⟩
  · unfold BufferedAudioSource.read
    split
    · next h => simp [List.length_take]; omega
    · simp
  · intro h; simp [BufferedAudioSource.read, h]
  · intro h; simp [BufferedAudioSource.read, Nat.not_le.mpr h]
  · intro d hd
    have h1 : DISCORD_FRAME_BYTES ≤ d.length := by omega
    have e1 : BufferedAudioSource.read d =
        (d.take DISCORD_FRAME_BYTES, d.drop DISCORD_FRAME_BYTES) := by
      simp [BufferedAudioSource.read, h1]
    have hlen2 : (d.drop DISCORD_FRAME_BYTES).length = DISCORD_FRAME_BYTES := by
      simp [List.length_drop]; omega
    have ht : (d.drop DISCORD_FRAME_BYTES).take DISCORD_FRAME_BYTES =
        d.drop DISCORD_FRAME_BYTES := List.take_of_length_le (by omega)
    have hd2 : (d.drop DISCORD_FRAME_BYTES).drop DISCORD_FRAME_BYTES =
        ([] : List Nat) := List.drop_eq_nil_of_le (by omega)
    have e2 : BufferedAudioSource.read (d.drop DISCORD_FRAME_BYTES) =
        (d.drop DISCORD_FRAME_BYTES, ([] : List Nat)) := by
      unfold BufferedAudioSource.read
      rw [if_pos (by omega), ht, hd2]
    have e3 : BufferedAudioSource.read ([] : List Nat) =
        (List.replicate DISCORD_FRAME_BYTES 0, ([] : List Nat)) := by
      unfold BufferedAudioSource.read
      rw [if_neg (by decide)]
    refine ⟨?_, ?_, ?_, ?_⟩ <;> simp [e1, e2, e3]

/-- Witness for C1 at a concrete two-frame buffer. -/
theorem c1_read_frame_witness :
    (BufferedAudioSource.read ([] : List Nat)).1.length = DISCORD_FRAME_BYTES
    ∧ (BufferedAudioSource.read (List.replicate (2 * DISCORD_FRAME_BYTES) 1)).1 =
        (List.replicate (2 * DISCORD_FRAME_BYTES) 1).take DISCORD_FRAME_BYTES :=
  ⟨(c1_read_frame []).1,
   ((c1_read_frame (List.replicate (2 * DISCORD_FRAME_BYTES) 1)).2.2.2
      (List.replicate (2 * DISCORD_FRAME_BYTES) 1) (by simp)).1⟩

/-- Claim C2: when the active semitone shift is 0, `process` returns
the input byte string itself (identity fast path, no conversion). -/
theorem c2_identity (ps : List ℚ → ℚ → List ℚ) (vc : VoiceChanger)
    (pcm : List Nat) (h : vc.semitones = 0) :
    VoiceChanger.process ps vc pcm = pcm := by
  simp [VoiceChanger.process, h]

/-- Witness for C2 at the initial (normal-mode) changer. -/
theorem c2_identity_witness :
    VoiceChanger.process psId VoiceChanger.init [1, 2, 3, 4] = [1, 2, 3, 4] :=
  c2_identity psId VoiceChanger.init [1, 2, 3, 4] (by decide)

/-- Claim C6: the controller starts in normal mode with shift 0, and
after any prior sequence of mode-set operations, `set_high` yields
shift 6, `set_low` yields -6, `set_gender true` yields 10 and
`set_gender false` yields -10. -/
theorem c6_mode_controller :
    VoiceChanger.init.semitones = 0
    ∧ ∀ ops : List ModeOp,
        ((runModeOps ops).set_high).semitones = 6
        ∧ ((runModeOps ops).set_low).semitones = -6
        ∧ ((runModeOps ops).set_gender true).semitones = 10
        ∧ ((runModeOps ops).set_gender false).semitones = -10 := by
  refine ⟨by decide, fun ops => ⟨?_, ?_, ?_, ?_⟩⟩ <;>
    simp [VoiceChanger.semitones, VoiceChanger.set_high, VoiceChanger.set_low,
      VoiceChanger.set_gender, fixedShift]

/-- Claim C8: backend selection is a fixed deterministic function of
availability with preference order pyrubberband, librosa, scipy, and
the bot's import chain agrees with the local variant's dispatch. -/
theorem c8_engine_selection :
    (∀ hl : Bool, ENGINE true hl = Engine.pyrubberband)
    ∧ ENGINE false true = Engine.librosa
    ∧ ENGINE false false = Engine.scipy
    ∧ ∀ hp hl : Bool, ENGINE hp hl = selectBackendMain hp hl := by
  decide

/-- Claim C9: for any mode string outside the recognized set the
`semitones` property is 0, so `process` is the identity. -/
theorem c9_unknown_mode (ps : List ℚ → ℚ → List ℚ) (vc : VoiceChanger)
    (pcm : List Nat)
    (h : vc.mode ∉ (["normal", "high", "low", "gender", "custom"] : List String)) :
    vc.semitones = 0 ∧ VoiceChanger.process ps vc pcm = pcm := by
  simp only [List.mem_cons, List.not_mem_nil, or_false, not_or] at h
  obtain ⟨hn, hh, hl, hg, hc⟩ := h
  have hs : vc.semitones = 0 := by
    simp [VoiceChanger.semitones, fixedShift, hn, hh, hl, hg, hc]
  exact ⟨hs, by simp [VoiceChanger.process, hs]⟩

/-- Witness for C9 at a changer whose mode is the string banana. -/
theorem c9_unknown_mode_witness :
    vcWeird.semitones = 0 ∧ VoiceChanger.process psId vcWeird [1, 2, 3, 4] = [1, 2, 3, 4] :=
  c9_unknown_mode psId vcWeird [1, 2, 3, 4] (by decide)

/-- Master lemma for the dispatch loop of `VoiceChangerSink.write`: the
removed windows concatenated with the remainder reproduce the buffer,
there are exactly `length / chunk_bytes` windows, the remainder has
length `length % chunk_bytes`, and every window is one chunk long. -/
theorem writeLoop_spec (buf : List Nat) :
    (writeLoop buf).1.flatten ++ (writeLoop buf).2 = buf
    ∧ (writeLoop buf).1.length = buf.length / chunk_bytes
    ∧ (writeLoop buf).2.length = buf.length % chunk_bytes
    ∧ ∀ c ∈ (writeLoop buf).1, c.length = chunk_bytes := by
  have hc : 0 < chunk_bytes := by decide
  have main : ∀ (n : Nat) (l : List Nat), l.length ≤ n →
      (writeLoop l).1.flatten ++ (writeLoop l).2 = l
      ∧ (writeLoop l).1.length = l.length / chunk_bytes
      ∧ (writeLoop l).2.length = l.length % chunk_bytes
      ∧ ∀ c ∈ (writeLoop l).1, c.length = chunk_bytes := by
    intro n
    induction n with
    | zero =>
        intro l hl
        have h : ¬ chunk_bytes ≤ l.length := by omega
        have hlt2 : l.length < chunk_bytes := by omega
        have e : writeLoop l = ([], l) := by
          unfold writeLoop
          rw [dif_neg h]
        rw [e]
        exact ⟨by simp, by simp [Nat.div_eq_of_lt hlt2],
          by simp [Nat.mod_eq_of_lt hlt2], by simp⟩
    | succ n ih =>
        intro l hl
        by_cases h : chunk_bytes ≤ l.length
        · have e : writeLoop l =
              (l.take chunk_bytes :: (writeLoop (l.drop chunk_bytes)).1,
               (writeLoop (l.drop chunk_bytes)).2) := by
            conv_lhs => rw [writeLoop.eq_def]
            rw [dif_pos h]
          have hlt : (l.drop chunk_bytes).length ≤ n := by
            simp [List.length_drop]; omega
          obtain ⟨ihj, ihcnt, ihm, ihall⟩ := ih (l.drop chunk_bytes) hlt
          have hdl : (l.drop chunk_bytes).length = l.length - chunk_bytes := by
            simp [List.length_drop]
          refine ⟨?_, ?_, ?_, ?_⟩
          · rw [e]
            simp only [List.flatten_cons, List.append_assoc]
            rw [ihj, List.take_append_drop]
          · rw [e]
            simp only [List.length_cons]
            rw [ihcnt, hdl, Nat.div_eq_sub_div hc h]
          · rw [e]
            simp only []
            rw [ihm, hdl, Nat.mod_eq_sub_mod h]
          · intro c hcm
            rw [e] at hcm
            simp only [List.mem_cons] at hcm
            rcases hcm with hcm | hcm
            · rw [hcm]; simp [List.length_take]; omega
            · exact ihall c hcm
        · have hlt2 : l.length < chunk_bytes := by omega
          have e : writeLoop l = ([], l) := by
            unfold writeLoop
            rw [dif_neg h]
          rw [e]
          exact ⟨by simp, by simp [Nat.div_eq_of_lt hlt2],
            by simp [Nat.mod_eq_of_lt hlt2], by simp⟩
  exact main buf.length buf le_rfl

/-- Claim C4: on a buffer holding `K * chunk_bytes + r` bytes after the
extend (`r < chunk_bytes`, window size 38400 = 10 frames), `write`
dispatches exactly `K` windows — each removed from the front, one chunk
long, transformed by `process` and appended to the jitter buffer in
order — and retains exactly `r` bytes; pushing a single 3840-byte frame
into an empty buffer dispatches nothing and leaves 3840 bytes. -/
theorem c4_ingest (ps : List ℚ → ℚ → List ℚ) (changer : VoiceChanger)
    (buf data jitter : List Nat) :
    (writeLoop (buf ++ data)).1.length = (buf.length + data.length) / chunk_bytes
    ∧ (VoiceChangerSink.write ps changer buf data jitter).1.length
        = (buf.length + data.length) % chunk_bytes
    ∧ (writeLoop (buf ++ data)).1.flatten
        ++ (VoiceChangerSink.write ps changer buf data jitter).1 = buf ++ data
    ∧ (∀ c ∈ (writeLoop (buf ++ data)).1, c.length = chunk_bytes)
    ∧ (VoiceChangerSink.write ps changer buf data jitter).2
        = jitter ++ ((writeLoop (buf ++ data)).1.map
            (VoiceChanger.process ps changer)).flatten
    ∧ (buf = [] → data.length = DISCORD_FRAME_BYTES →
        (writeLoop (buf ++ data)).1 = []
        ∧ (VoiceChangerSink.write ps changer buf data jitter).1.length
            = DISCORD_FRAME_BYTES) := by
  obtain ⟨hj, hcnt, hm, hall⟩ := writeLoop_spec (buf ++ data)
  have hL : (buf ++ data).length = buf.length + data.length := by
    simp [List.length_append]
  refine ⟨by rw [hcnt, hL], by simpa [VoiceChangerSink.write, hL] using hm,
    by simpa [VoiceChangerSink.write] using hj, hall,
    by simp [VoiceChangerSink.write], ?_⟩
  intro hbuf hdata
  have hsmall : buf.length + data.length < chunk_bytes := by
    subst hbuf
    rw [hdata]
    simp
    decide
  constructor
  · have : (writeLoop (buf ++ data)).1.length = 0 := by
      rw [hcnt, hL, Nat.div_eq_of_lt hsmall]
    exact List.length_eq_zero.mp this
  · rw [VoiceChangerSink.write]
    simp only []
    rw [hm, hL, Nat.mod_eq_of_lt hsmall]
    subst hbuf
    simpa using hdata

/-- Witness for C4 at one frame pushed into an empty speaker buffer. -/
theorem c4_ingest_witness :
    (writeLoop (([] : List Nat) ++ List.replicate DISCORD_FRAME_BYTES 0)).1 = []
    ∧ (VoiceChangerSink.write psId VoiceChanger.init []
        (List.replicate DISCORD_FRAME_BYTES 0) []).1.length = DISCORD_FRAME_BYTES :=
  (c4_ingest psId VoiceChanger.init [] (List.replicate DISCORD_FRAME_BYTES 0)
    []).2.2.2.2.2 rfl (by simp)

/-- Decoding produces one int16 sample per byte pair. -/
theorem byteToSamples_length : ∀ l : List Nat,
    (byteToSamples l).length = l.length / 2
  | [] => by simp [byteToSamples]
  | [b] => by simp [byteToSamples]
  | b0 :: b1 :: rest => by
      simp only [byteToSamples, List.length_cons]
      rw [byteToSamples_length rest]
      omega

/-- The downmix halves the sample count. -/
theorem avgPairs_length : ∀ l : List ℚ,
    (avgPairs l).length = l.length / 2
  | [] => by simp [avgPairs]
  | [a] => by simp [avgPairs]
  | a :: b :: rest => by
      simp only [avgPairs, List.length_cons]
      rw [avgPairs_length rest]
      omega

/-- Mono-to-stereo duplication doubles the sample count. -/
theorem repeatTwice_length (xs : List Int) :
    (repeatTwice xs).length = 2 * xs.length := by
  induction xs with
  | nil => rfl
  | cons a t ih =>
      simp only [repeatTwice, List.flatMap_cons] at *
      simp [ih]
      omega

/-- Encoding produces two bytes per int16 sample. -/
theorem samplesToBytes_length (xs : List Int) :
    (samplesToBytes xs).length = 2 * xs.length := by
  induction xs with
  | nil => rfl
  | cons a t ih =>
      simp only [samplesToBytes, List.flatMap_cons] at *
      simp [ih, encodeSample]
      omega

/-- Normalization to float keeps the sample count. -/
theorem normalizePCM_length (xs : List Int) :
    (normalizePCM xs).length = xs.length := by
  simp [normalizePCM]

/-- Tiling `ceil(n / L) + 1` copies of an `L`-element list reaches at
least `n` elements. -/
theorem tile_length_ge (n L : Nat) (hL : 1 ≤ L) :
    n ≤ ((n + L - 1) / L + 1) * L := by
  have hdm := Nat.div_add_mod (n + L - 1) L
  have hr : (n + L - 1) % L < L := Nat.mod_lt _ (by omega)
  have e : ((n + L - 1) / L + 1) * L = L * ((n + L - 1) / L) + L := by ring
  rw [e]
  omega

/-- Length preservation of `process` for a length-preserving backend. -/
theorem process_length (ps : List ℚ → ℚ → List ℚ) (vc : VoiceChanger)
    (pcm : List Nat) (hps : ∀ mono st, (ps mono st).length = mono.length)
    (hdvd : 4 ∣ pcm.length) :
    (VoiceChanger.process ps vc pcm).length = pcm.length := by
  simp only [VoiceChanger.process]
  split
  · rfl
  · rw [samplesToBytes_length, repeatTwice_length, List.length_map, hps,
      avgPairs_length, normalizePCM_length, byteToSamples_length]
    omega

/-- Length restoration of the scipy resampling fallback branch of
`_pitch_shift`: whatever length the resampler returns is truncated or
tiled back to the input sample count. -/
theorem pitch_shift_impl_scipy_length (bk : Backends) (mono : List ℚ)
    (st : ℚ) (hres : ∀ xs m, (bk.resample xs m).length = m) :
    (pitch_shift_impl bk Engine.scipy mono st).length = mono.length := by
  unfold pitch_shift_impl
  simp only []
  have h1 : 1 ≤ max 1 (bk.approx_len mono.length st) := le_max_left _ _
  have hrl : (bk.resample mono (max 1 (bk.approx_len mono.length st))).length =
      max 1 (bk.approx_len mono.length st) := hres mono _
  split
  · next h => simp [List.length_take, hrl]; omega
  · next h =>
      rw [List.length_take, List.length_flatten, List.map_replicate, hrl,
        List.sum_replicate, smul_eq_mul]
      exact Nat.min_eq_left (tile_length_ge mono.length _ h1)

/-- Length preservation of `_pitch_shift` for every engine, given the
library backends preserve length and the resampler honours its length
argument. -/
theorem pitch_shift_impl_length (bk : Backends) (engine : Engine)
    (mono : List ℚ) (st : ℚ)
    (hpy : ∀ m s, (bk.pyrb m s).length = m.length)
    (hlib : ∀ m s, (bk.librosa m s).length = m.length)
    (hres : ∀ xs m, (bk.resample xs m).length = m) :
    (pitch_shift_impl bk engine mono st).length = mono.length := by
  cases engine with
  | pyrubberband => exact hpy mono st
  | librosa => exact hlib mono st
  | scipy => exact pitch_shift_impl_scipy_length bk mono st hres

/-- Claim C5: the transform's output byte length equals the input byte
length for every length-preserving backend and every shift, and the
scipy resampling fallback always forces its intermediate result back to
the input's sample count by truncation or periodic tiling. -/
theorem c5_output_length :
    (∀ (ps : List ℚ → ℚ → List ℚ) (vc : VoiceChanger) (pcm : List Nat),
        (∀ mono st, (ps mono st).length = mono.length) → 4 ∣ pcm.length →
        (VoiceChanger.process ps vc pcm).length = pcm.length)
    ∧ (∀ (bk : Backends) (mono : List ℚ) (st : ℚ),
        (∀ xs m, (bk.resample xs m).length = m) →
        (pitch_shift_impl bk Engine.scipy mono st).length = mono.length)
    ∧ (∀ (bk : Backends) (engine : Engine) (mono : List ℚ) (st : ℚ),
        (∀ m s, (bk.pyrb m s).length = m.length) →
        (∀ m s, (bk.librosa m s).length = m.length) →
        (∀ xs m, (bk.resample xs m).length = m) →
        (pitch_shift_impl bk engine mono st).length = mono.length) :=
  ⟨process_length, pitch_shift_impl_scipy_length, pitch_shift_impl_length⟩

/-- Witness for C5 at a concrete 8-byte chunk and a concrete fallback. -/
theorem c5_output_length_witness :
    (VoiceChanger.process psId (VoiceChanger.init.set_high)
      [1, 2, 3, 4, 5, 6, 7, 8]).length = 8
    ∧ (pitch_shift_impl bkZero Engine.scipy [1, 2, 3] 6).length = 3 := by
  constructor
  · have h := c5_output_length.1 psId (VoiceChanger.init.set_high)
      [1, 2, 3, 4, 5, 6, 7, 8] (fun _ _ => rfl) (by decide)
    simpa using h
  · exact c5_output_length.2.1 bkZero [1, 2, 3] 6 (fun xs m => by simp [bkZero])

/-- Little-endian decode inverts encode on every in-range int16
sample, with any byte tail. -/
theorem byteToSamples_encodeSample (s : Int) (rest : List Nat)
    (h1 : -32768 ≤ s) (h2 : s ≤ 32767) :
    byteToSamples (encodeSample s ++ rest) = s :: byteToSamples rest := by
  show decodeSample ((s % 65536).toNat % 256) ((s % 65536).toNat / 256)
      :: byteToSamples rest = s :: byteToSamples rest
  congr 1
  simp only [decodeSample]
  split
  · next h => omega
  · next h => omega

/-- Little-endian decode inverts encode on every in-range int16 list. -/
theorem byteToSamples_samplesToBytes (xs : List Int)
    (h : ∀ s ∈ xs, -32768 ≤ s ∧ s ≤ 32767) :
    byteToSamples (samplesToBytes xs) = xs := by
  induction xs with
  | nil => rfl
  | cons a t ih =>
      have ha := h a (by simp)
      have e : samplesToBytes (a :: t) = encodeSample a ++ samplesToBytes t := by
        simp [samplesToBytes]
      rw [e, byteToSamples_encodeSample a _ ha.1 ha.2,
        ih (fun s hs => h s (by simp [hs]))]

/-- The clipped int16 conversion always lands in the signed 16-bit
range. -/
theorem clipToInt16_range (x : ℚ) :
    -32768 ≤ clipToInt16 x ∧ clipToInt16 x ≤ 32767 := by
  unfold clipToInt16 truncRat
  have hcu : min (32767 : ℚ) (max (-32768) x) ≤ 32767 := min_le_left _ _
  have hcl : (-32768 : ℚ) ≤ min 32767 (max (-32768) x) :=
    le_min (by norm_num) (le_max_left _ _)
  split
  · next h =>
      constructor
      · have h0 : (0 : Int) ≤ Int.floor (min (32767 : ℚ) (max (-32768) x)) :=
          Int.le_floor.mpr (by exact_mod_cast h)
        omega
      · exact_mod_cast le_trans (Int.floor_le (min (32767 : ℚ) (max (-32768) x))) hcu
  · next h =>
      constructor
      · exact_mod_cast le_trans hcl (Int.le_ceil (min (32767 : ℚ) (max (-32768) x)))
      · have h0 : Int.ceil (min (32767 : ℚ) (max (-32768) x)) ≤ 0 :=
          Int.ceil_le.mpr (by push_neg at h; exact_mod_cast h.le)
        omega

/-- Index view of the pairwise-average downmix. -/
theorem avgPairs_getD : ∀ (l : List ℚ) (i : Nat), 2 * i + 1 < l.length →
    (avgPairs l).getD i 0 = (l.getD (2 * i) 0 + l.getD (2 * i + 1) 0) * (1 / 2)
  | [], i, h => by simp at h
  | [a], i, h => by simp at h
  | a :: b :: rest, 0, _ => by simp [avgPairs]
  | a :: b :: rest, i + 1, h => by
      have h2 : 2 * i + 1 < rest.length := by
        simp only [List.length_cons] at h
        omega
      have hr := avgPairs_getD rest i h2
      have e1 : 2 * (i + 1) = 2 * i + 1 + 1 := by omega
      have e2 : 2 * (i + 1) + 1 = 2 * i + 1 + 1 + 1 := by omega
      simp only [avgPairs, e1, e2, List.getD_cons_succ]
      exact hr

/-- Index view of the mono-to-stereo duplication: positions `2i` and
`2i+1` both carry sample `i`. -/
theorem repeatTwice_getD : ∀ (xs : List Int) (i : Nat),
    (repeatTwice xs).getD (2 * i) 0 = xs.getD i 0
    ∧ (repeatTwice xs).getD (2 * i + 1) 0 = xs.getD i 0
  | [], i => by simp [repeatTwice]
  | a :: t, 0 => by simp [repeatTwice]
  | a :: t, i + 1 => by
      have hr := repeatTwice_getD t i
      have hcons : repeatTwice (a :: t) = a :: a :: repeatTwice t := by
        simp [repeatTwice]
      have e1 : 2 * (i + 1) = 2 * i + 1 + 1 := by omega
      rw [hcons, e1]
      simp only [List.getD_cons_succ]
      exact hr

/-- Claim C7: for every input and nonzero shift, the transform output
decodes to the backend's mono result applied to the channel-averaged
downmix, converted to int16 with saturation clipping into
[-32768, 32767] and duplicated to two identical channels; in
particular every output sample is in range and positions `2i` and
`2i+1` always agree. -/
theorem c7_stereo_pipeline (ps : List ℚ → ℚ → List ℚ) (vc : VoiceChanger)
    (pcm : List Nat) (hst : vc.semitones ≠ 0) :
    byteToSamples (VoiceChanger.process ps vc pcm)
      = repeatTwice ((ps (avgPairs (normalizePCM (byteToSamples pcm)))
          vc.semitones).map (fun x => clipToInt16 (x * 32768)))
    ∧ (∀ s ∈ byteToSamples (VoiceChanger.process ps vc pcm),
        -32768 ≤ s ∧ s ≤ 32767)
    ∧ (∀ i : Nat, 2 * i + 1 < (normalizePCM (byteToSamples pcm)).length →
        (avgPairs (normalizePCM (byteToSamples pcm))).getD i 0
          = ((normalizePCM (byteToSamples pcm)).getD (2 * i) 0
              + (normalizePCM (byteToSamples pcm)).getD (2 * i + 1) 0) * (1 / 2))
    ∧ ∀ i : Nat,
        (byteToSamples (VoiceChanger.process ps vc pcm)).getD (2 * i) 0
          = (byteToSamples (VoiceChanger.process ps vc pcm)).getD (2 * i + 1) 0 := by
  have hproc : VoiceChanger.process ps vc pcm
      = samplesToBytes (repeatTwice
          ((ps (avgPairs (normalizePCM (byteToSamples pcm))) vc.semitones).map
            (fun x => clipToInt16 (x * 32768)))) := by
    simp only [VoiceChanger.process]
    rw [if_neg hst]
  have hrange16 : ∀ s ∈ (ps (avgPairs (normalizePCM (byteToSamples pcm)))
        vc.semitones).map (fun x => clipToInt16 (x * 32768)),
      -32768 ≤ s ∧ s ≤ 32767 := by
    intro s hs
    rw [List.mem_map] at hs
    obtain ⟨x, _, rfl⟩ := hs
    exact clipToInt16_range _
  have hrangeDup : ∀ s ∈ repeatTwice
        ((ps (avgPairs (normalizePCM (byteToSamples pcm)))
          vc.semitones).map (fun x => clipToInt16 (x * 32768))),
      -32768 ≤ s ∧ s ≤ 32767 := by
    intro s hs
    rw [repeatTwice, List.mem_flatMap] at hs
    obtain ⟨a, ha, hs2⟩ := hs
    have : s = a := by
      simp only [List.mem_cons, List.not_mem_nil, or_false] at hs2
      rcases hs2 with h | h
      · exact h
      · exact h
    rw [this]
    exact hrange16 a ha
  have hrt := byteToSamples_samplesToBytes _ hrangeDup
  refine ⟨by rw [hproc, hrt], ?_, ?_, ?_⟩
  · intro s hs
    rw [hproc, hrt] at hs
    exact hrangeDup s hs
  · intro i hi
    exact avgPairs_getD _ i hi
  · intro i
    rw [hproc, hrt]
    exact (repeatTwice_getD _ i).1.trans (repeatTwice_getD _ i).2.symm

/-- Witness for C7 at a concrete chunk: left and right output samples
agree. -/
theorem c7_stereo_pipeline_witness :
    (byteToSamples (VoiceChanger.process psId VoiceChanger.init.set_high
      [0, 1, 2, 3])).getD 0 0
      = (byteToSamples (VoiceChanger.process psId VoiceChanger.init.set_high
          [0, 1, 2, 3])).getD 1 0 := by
  have h := (c7_stereo_pipeline psId VoiceChanger.init.set_high [0, 1, 2, 3]
    (by decide)).2.2.2 0
  simpa using h

/-- The real hyperbolic tangent is bounded by 1 in absolute value. -/
theorem tanh_bounds (x : ℝ) : -1 ≤ Real.tanh x ∧ Real.tanh x ≤ 1 := by
  have hc := Real.cosh_pos x
  have h1 := Real.sinh_lt_cosh x
  have h2 := Real.sinh_lt_cosh (-x)
  rw [Real.sinh_neg, Real.cosh_neg] at h2
  rw [Real.tanh_eq_sinh_div_cosh]
  constructor
  · rw [le_div_iff₀ hc]
    linarith
  · rw [div_le_one hc]
    linarith

/-- `getD` through a map at an in-range index. -/
theorem getD_map_zero (l : List ℝ) (g : ℝ → ℝ) (i : Nat) (h : i < l.length) :
    (l.map g).getD i 0 = g (l.getD i 0) := by
  rw [List.getD_eq_getElem?_getD, List.getD_eq_getElem?_getD, List.getElem?_map,
    List.getElem?_eq_getElem h]
  simp

/-- `getD` past the end returns the default. -/
theorem getD_zero_of_le (l : List ℝ) (i : Nat) (h : l.length ≤ i) :
    l.getD i 0 = 0 := by
  rw [List.getD_eq_getElem?_getD, List.getElem?_eq_none h]
  rfl

/-- Claim C3 counterexample: with a backend that raises and a nonzero
shift, `process` (bot variant) surfaces the error to its caller instead
of returning the original audio — the method body has no try/except. -/
theorem c3_counterexample :
    VoiceChanger.processE psErr VoiceChanger.init.set_high [0, 1, 2, 3]
      = Except.error ()
    ∧ VoiceChanger.processE psErr VoiceChanger.init.set_high [0, 1, 2, 3]
      ≠ Except.ok [0, 1, 2, 3] := by
  have h1 : VoiceChanger.processE psErr VoiceChanger.init.set_high [0, 1, 2, 3]
      = Except.error () := rfl
  refine ⟨h1, ?_⟩
  rw [h1]
  intro h
  exact Except.noConfusion h

/-- Claim C3 amended: only the local-microphone variant recovers from a
pitch-shift error — `audio_callback` catches it and keeps the original
audio for that block — while the bot variant's `process` propagates the
backend's error unchanged to its caller. -/
theorem c3_error_policy :
    (∀ (ps : List ℚ → ℚ → Except Unit (List ℚ)) (vc : VoiceChanger)
        (pcm : List Nat) (e : Unit), vc.semitones ≠ 0 →
        ps (avgPairs (normalizePCM (byteToSamples pcm))) vc.semitones
          = Except.error e →
        VoiceChanger.processE ps vc pcm = Except.error e)
    ∧ (∀ (ps : List ℝ → ℝ → Except Unit (List ℝ)) (st : ℝ) (audio : List ℝ)
        (e : Unit), ps audio st = Except.error e →
        callbackProcessed ps st audio = audio) := by
  constructor
  · intro ps vc pcm e hst herr
    simp only [VoiceChanger.processE]
    rw [if_neg hst, herr]
  · intro ps st audio e herr
    unfold callbackProcessed
    split
    · rw [herr]
    · rfl

/-- Witness for C3's amended statement at concrete failing backends. -/
theorem c3_error_policy_witness :
    VoiceChanger.processE psErr VoiceChanger.init.set_low [5, 6, 7, 8]
      = Except.error ()
    ∧ callbackProcessed (fun _ _ => Except.error ()) 1 [(1 : ℝ) / 2]
      = [(1 : ℝ) / 2] :=
  ⟨c3_error_policy.1 psErr VoiceChanger.init.set_low [5, 6, 7, 8] ()
      (by decide) rfl,
   c3_error_policy.2 (fun _ _ => Except.error ()) 1 [(1 : ℝ) / 2] () rfl⟩

/-- Claim C10: every sample `audio_callback` writes to the output block
lies in [-1, 1] — the gain-boosted signal passes through the tanh soft
limiter — and every position at or beyond the copied length is zero. -/
theorem c10_soft_limiter (ps : List ℝ → ℝ → Except Unit (List ℝ))
    (st gain : ℝ) (audio : List ℝ) (frames i : Nat) :
    (-1 ≤ (audio_callback ps st gain audio frames).getD i 0
      ∧ (audio_callback ps st gain audio frames).getD i 0 ≤ 1)
    ∧ (min (callbackProcessed ps st audio).length frames ≤ i →
        (audio_callback ps st gain audio frames).getD i 0 = 0) := by
  have hlenmap : ((callbackProcessed ps st audio).map
      (fun x => Real.tanh (x * gain))).length
      = (callbackProcessed ps st audio).length := by
    simp
  have hgd : ∀ j, j < frames →
      (audio_callback ps st gain audio frames).getD j 0
      = if j < min ((callbackProcessed ps st audio).map
            (fun x => Real.tanh (x * gain))).length frames
        then ((callbackProcessed ps st audio).map
            (fun x => Real.tanh (x * gain))).getD j 0
        else 0 := by
    intro j hj
    show ((List.range frames).map _).getD j 0 = _
    rw [List.getD_eq_getElem?_getD, List.getElem?_map, List.getElem?_range hj]
    rfl
  have hcblen : (audio_callback ps st gain audio frames).length = frames := by
    show ((List.range frames).map _).length = frames
    simp
  constructor
  · by_cases hif : i < frames
    · rw [hgd i hif]
      split
      · next hlt =>
          have hip : i < (callbackProcessed ps st audio).length := by
            rw [hlenmap] at hlt
            omega
          rw [getD_map_zero _ _ _ hip]
          exact tanh_bounds _
      · exact ⟨by norm_num, by norm_num⟩
    · rw [getD_zero_of_le _ _ (by omega)]
      exact ⟨by norm_num, by norm_num⟩
  · intro hmin
    by_cases hif : i < frames
    · rw [hgd i hif, if_neg (by rw [hlenmap]; omega)]
    · rw [getD_zero_of_le _ _ (by omega)]

/-- Witness for C10 at a concrete block. -/
theorem c10_soft_limiter_witness :
    (-1 ≤ (audio_callback (fun a _ => Except.ok a) 0 VOLUME_GAIN
        [(1 : ℝ)] 1).getD 5 0
      ∧ (audio_callback (fun a _ => Except.ok a) 0 VOLUME_GAIN
          [(1 : ℝ)] 1).getD 5 0 ≤ 1)
    ∧ (audio_callback (fun a _ => Except.ok a) 0 VOLUME_GAIN
        [(1 : ℝ)] 1).getD 5 0 = 0 :=
  ⟨(c10_soft_limiter (fun a _ => Except.ok a) 0 VOLUME_GAIN [(1 : ℝ)] 1 5).1,
   (c10_soft_limiter (fun a _ => Except.ok a) 0 VOLUME_GAIN [(1 : ℝ)] 1 5).2
     (le_trans (min_le_right _ _) (by norm_num))⟩
